import Mathlib

/-!
Shallow embedding of the load-balancer repository (Go):
- internal/balancer (rate_limit.go, second file): LoadBalancer.AddBackend, LoadBalancer.NextBackend
- internal/ratelimiter (rate_limit.go, first file): MethodRateLimiter.Allow
- internal/backend/backend.go: Backend
- cmd/main.go: the HTTP handler mapping Allow outcomes to status codes

Conventions: Go float64 values (token counts, seconds) are modelled as ℚ;
durations are modelled exactly as Go `time.Duration` (an integer nanosecond
count); Go maps become association lists; time.Now() becomes an explicit
`now : ℚ` parameter (seconds); external effects (Redis reads/writes, url.Parse)
become explicit parameters carrying the outcome the external call produced.
-/

namespace Balancer

deriving instance DecidableEq for Except

/-- internal/backend/backend.go: a Backend holds its URL (modelled by its
canonical string form, as produced by URL.String()). -/
structure Backend where
  url : String
  deriving DecidableEq

/-- internal/backend/backend.go: NewBackend. -/
def NewBackend (u : String) : Backend := { url := u }

/-! ### Go time.ParseDuration, modelled

`NextBackend` parses each stored latency string with Go's
`time.ParseDuration`, discarding the error (`responseTime, _ := ...`): on
parse failure the zero Duration is used.  We model ParseDuration on the
forms this program can store and read back: an optional sign, the special
string "0", and one or more integer+unit groups with units ns, us, ms, s,
m, h.  Fractional forms ("1.5ms") and the µs spellings are omitted from the
model (no claim depends on them); strings outside the modelled grammar
parse to `none`, exactly the entries whose parse fails. -/

/-- Nanoseconds per unit, as in Go's unitMap (µs spellings omitted). -/
def unitNanos : String → Option Int
  | "ns" => some 1
  | "us" => some 1000
  | "ms" => some 1000000
  | "s" => some 1000000000
  | "m" => some 60000000000
  | "h" => some 3600000000000
  | _ => none

/-- Split a leading run of decimal digits from a character list. -/
def takeDigits : List Char → List Char × List Char
  | [] => ([], [])
  | c :: cs =>
    if c.isDigit then
      let p := takeDigits cs
      (c :: p.1, p.2)
    else ([], c :: cs)

/-- Split a leading run of non-digit characters (the unit) from a list. -/
def takeUnit : List Char → List Char × List Char
  | [] => ([], [])
  | c :: cs =>
    if c.isDigit then ([], c :: cs)
    else
      let p := takeUnit cs
      (c :: p.1, p.2)

/-- Decimal digit run to a natural number. -/
def digitsToNat (l : List Char) : Nat :=
  l.foldl (fun acc c => acc * 10 + (c.toNat - 48)) 0

/-- Parse the (number, unit)+ groups of a duration string, in nanoseconds.
Fuel-indexed structural recursion; fuel = length + 1 always suffices since
each group consumes at least one digit. -/
def parseGroupsAux : Nat → List Char → Option Int
  | _, [] => some 0
  | 0, _ :: _ => none
  | fuel + 1, c :: cs =>
    let p := takeDigits (c :: cs)
    if p.1.isEmpty then none
    else
      let q := takeUnit p.2
      match unitNanos (String.mk q.1) with
      | none => none
      | some mult =>
        match parseGroupsAux fuel q.2 with
        | none => none
        | some rest => some ((digitsToNat p.1 : Int) * mult + rest)

/-- Go time.ParseDuration (modelled): result in integer nanoseconds, or
`none` on a parse failure. -/
def parseDuration (s : String) : Option Int :=
  match s.toList with
  | [] => none
  | c :: rest =>
    let neg := c == '-'
    let cs := if c == '-' || c == '+' then rest else c :: rest
    if cs = ['0'] then some 0
    else if cs.isEmpty then none
    else
      match parseGroupsAux (cs.length + 1) cs with
      | none => none
      | some n => some (if neg then -n else n)

/-- Go Duration.Seconds(): nanoseconds to (float64) seconds, the rational
n / 10^9 (written with the normalizing constructor mkRat, which the kernel
evaluates). -/
def durSeconds (n : Int) : ℚ := mkRat n 1000000000

/-- Association-list update modelling a Go map assignment m[k] = v
(and a Redis HSet of one field). -/
def setAssoc {β : Type} : List (String × β) → String → β → List (String × β)
  | [], k, v => [(k, v)]
  | p :: rest, k, v =>
    if p.1 == k then (k, v) :: rest else p :: setAssoc rest k v

/-! ### LoadBalancer (internal/balancer) -/

/-- The errors NextBackend / AddBackend can return (errors.New messages in
the Go source, plus url.Parse and Redis failures). -/
inductive LBError where
  | noBackendsAvailable
  | storeError
  | noBackendSelected
  | backendNotFound
  | invalidURL
  | storeWriteFailure
  deriving DecidableEq

/-- The LoadBalancer's mutable state: the registry's backend slice and the
Redis hash "backends" (field: backend URL string, value: serialized
duration). -/
structure LBState where
  backends : List Backend
  store : List (String × String)
  deriving DecidableEq

/-- LoadBalancer.AddBackend.  `parsedURL` is the outcome of url.Parse
(the canonical URL string on success), `storeWriteOk` the outcome of the
Redis HSet initializing the latency field to "0".  The Go code appends the
new backend to lb.backends before attempting the store write and returns
the HSet error without undoing the append. -/
def AddBackend (lb : LBState) (urlStr : String) (parsedURL : Option String)
    (storeWriteOk : Bool) : Except LBError Unit × LBState :=
  match parsedURL with
  | none => (.error .invalidURL, lb)
  | some u =>
    let lb1 : LBState := { lb with backends := lb.backends ++ [NewBackend u] }
    if storeWriteOk then
      (.ok (), { lb1 with store := setAssoc lb1.store urlStr ("0") })
    else
      (.error .storeWriteFailure, lb1)

/-- The scan loop of NextBackend over the HGetAll snapshot: fold tracking
(minResponseTime, selectedBackendURL), initialized to
(float64(^uint64(0) >> 1), "").  float64(2^63 - 1) rounds to 2^63 =
9223372036854775808, the value we use; it is unreachable by any parseable
duration (|ns| < 2^63,
so seconds < 2^63).  Each entry's value (entryVal) is ParseDuration with
the error discarded: a failing entry contributes the zero Duration.
Strict `<` keeps the earliest minimum in iteration order. -/
def entryVal (e : String × String) : ℚ :=
  durSeconds ((parseDuration e.2).getD 0)

/-- One iteration of the scan loop body. -/
def scanStep (acc : ℚ × String) (e : String × String) : ℚ × String :=
  if entryVal e < acc.1 then (entryVal e, e.1) else acc

def scanMin (entries : List (String × String)) : ℚ × String :=
  entries.foldl scanStep ((9223372036854775808 : ℚ), "")

/-- LoadBalancer.NextBackend.  `snapshot` is the outcome of the Redis
HGetAll of hash "backends"; a list models the (arbitrary) iteration order
of the Go map.  Follows the Go control flow: empty-registry check first,
then the store read, the min scan, the empty-selection check, and the
resolution of the winning URL back to a registry backend. -/
def NextBackend (backends : List Backend)
    (snapshot : Except Unit (List (String × String))) : Except LBError Backend :=
  if backends.length = 0 then .error .noBackendsAvailable
  else
    match snapshot with
    | .error _ => .error .storeError
    | .ok responseTimes =>
      let sel := (scanMin responseTimes).2
      if sel = "" then .error .noBackendSelected
      else
        match backends.find? (fun b => b.url == sel) with
        | some b => .ok b
        | none => .error .backendNotFound

/-! ### MethodRateLimiter (internal/ratelimiter) -/

/-- The hard-coded rate-limited method allow-list of NewMethodRateLimiter. -/
def allowedMethods : List String :=
  ["eth_getChainId", "eth_getBlockNumber", "eth_getBlockByNumber",
   "eth_getBlockReceipts", "eth_getTransactionReceipt"]

/-- MethodRateLimiter: rate (tokens/second), burst, the tokens and last
(refill timestamp, in seconds) maps keyed "nodeId-method", and the
method allow-list. -/
structure MethodRateLimiter where
  rate : ℚ
  burst : Int
  tokens : List (String × ℚ)
  last : List (String × ℚ)
  methods : List String
  deriving DecidableEq

/-- NewMethodRateLimiter. -/
def NewMethodRateLimiter (rate : ℚ) (burst : Int) : MethodRateLimiter :=
  { rate := rate, burst := burst, tokens := [], last := [],
    methods := allowedMethods }

/-- The outcome of reading and JSON-decoding the request body: ioutil.ReadAll
may fail, json.Unmarshal may fail, otherwise the decoded "method" field is
obtained (Go's zero value "" when the field is absent). -/
inductive BodyResult where
  | readError
  | parseError
  | ok (method : String)
  deriving DecidableEq

/-- The parts of the http.Request that Allow consults: the ("Id") query
parameter ("" when absent) and the body-decode outcome. -/
structure Request where
  nodeId : String
  body : BodyResult
  deriving DecidableEq

/-- The error values Allow can return (body read error / unmarshal error). -/
inductive AllowError where
  | bodyReadError
  | bodyParseError
  deriving DecidableEq

/-- The cap applied after refill: `if tokens > float64(burst) { tokens =
float64(burst) }`. -/
def clampTokens (burst : Int) (t : ℚ) : ℚ :=
  if t > (burst : ℚ) then (burst : ℚ) else t

/-- MethodRateLimiter.Allow.  Returns (the Go (bool, error) pair as an
Except, the updated limiter state).  `now` is time.Now() in seconds. -/
def Allow (mrl : MethodRateLimiter) (r : Request) (now : ℚ) :
    Except AllowError Bool × MethodRateLimiter :=
  if r.nodeId == "" then (.ok true, mrl)
  else
    match r.body with
    | .readError => (.error .bodyReadError, mrl)
    | .parseError => (.error .bodyParseError, mrl)
    | .ok method =>
      if mrl.methods.contains method then
        match List.lookup (r.nodeId ++ "-" ++ method) mrl.tokens,
              List.lookup (r.nodeId ++ "-" ++ method) mrl.last with
        | some tokens, some last =>
          if clampTokens mrl.burst (tokens + (now - last) * mrl.rate) < 1 then
            (.ok false, mrl)
          else
            (.ok true,
              { mrl with
                tokens := setAssoc mrl.tokens (r.nodeId ++ "-" ++ method)
                  (clampTokens mrl.burst (tokens + (now - last) * mrl.rate) - 1),
                last := setAssoc mrl.last (r.nodeId ++ "-" ++ method) now })
        | _, _ =>
          (.ok true,
            { mrl with
              tokens := setAssoc mrl.tokens (r.nodeId ++ "-" ++ method)
                ((mrl.burst : ℚ) - 1),
              last := setAssoc mrl.last (r.nodeId ++ "-" ++ method) now })
      else (.ok true, mrl)

/-- Run a sequence of Allow calls (request, time) threading the state. -/
def runAllows (mrl : MethodRateLimiter) : List (Request × ℚ) → MethodRateLimiter
  | [] => mrl
  | (r, t) :: rest => runAllows (Allow mrl r t).2 rest

/-- Run n identical Allow calls at the same instant, collecting outcomes. -/
def runSeq (mrl : MethodRateLimiter) (r : Request) (t : ℚ) :
    Nat → List (Except AllowError Bool) × MethodRateLimiter
  | 0 => ([], mrl)
  | n + 1 =>
    let first := Allow mrl r t
    let rest := runSeq first.2 r t n
    (first.1 :: rest.1, rest.2)

/-- A limiter state of the main.go configuration (rate=10, burst=60) whose
maps hold exactly one bucket: used to trace a fixed key through repeated
calls. -/
def singleBucket (key : String) (v t : ℚ) : MethodRateLimiter :=
  { rate := 10, burst := 60, tokens := [(key, v)], last := [(key, t)],
    methods := allowedMethods }

/-! ### cmd/main.go handler -/

/-- What the handler does with the admission outcome. -/
inductive HandlerOutcome where
  | serverError500
  | tooManyRequests429
  | forwarded
  deriving DecidableEq

/-- cmd/main.go: the HTTP handler's admission branch: err != nil maps to
http.StatusInternalServerError (500), !allowed maps to
http.StatusTooManyRequests (429), otherwise the request is forwarded. -/
def handleRequest (mrl : MethodRateLimiter) (r : Request) (now : ℚ) :
    HandlerOutcome × MethodRateLimiter :=
  match Allow mrl r now with
  | (.error _, s) => (.serverError500, s)
  | (.ok false, s) => (.tooManyRequests429, s)
  | (.ok true, s) => (.forwarded, s)

/-! ## Helper lemmas about the selector scan -/

theorem parseDuration_zero : parseDuration ("0") = some 0 := by decide

theorem scanStep_cases (acc : ℚ × String) (e : String × String) :
    scanStep acc e = (entryVal e, e.1) ∨ scanStep acc e = acc := by
  unfold scanStep
  split
  · exact Or.inl rfl
  · exact Or.inr rfl

theorem scanFold_fst_le (l : List (String × String)) (acc : ℚ × String) :
    (l.foldl scanStep acc).1 ≤ acc.1 := by
  induction l generalizing acc with
  | nil => exact le_refl _
  | cons e l ih =>
    refine le_trans (ih (scanStep acc e)) ?_
    unfold scanStep
    split
    · exact le_of_lt (by assumption)
    · exact le_refl _

theorem scanFold_le_entry (l : List (String × String)) (acc : ℚ × String)
    (e : String × String) (he : e ∈ l) :
    (l.foldl scanStep acc).1 ≤ entryVal e := by
  induction l generalizing acc with
  | nil => cases he
  | cons a l ih =>
    rcases List.mem_cons.mp he with rfl | h
    · refine le_trans (scanFold_fst_le l (scanStep acc e)) ?_
      unfold scanStep
      split
      · exact le_refl _
      · exact le_of_not_lt (by assumption)
    · exact ih (scanStep acc a) h

theorem scanFold_cases (l : List (String × String)) (acc : ℚ × String) :
    l.foldl scanStep acc = acc ∨
      ∃ e ∈ l, l.foldl scanStep acc = (entryVal e, e.1) := by
  induction l generalizing acc with
  | nil => exact Or.inl rfl
  | cons a l ih =>
    rcases ih (scanStep acc a) with h | ⟨e, he, h⟩
    · rcases scanStep_cases acc a with h2 | h2
      · exact Or.inr ⟨a, List.mem_cons_self a l, by rw [List.foldl_cons, h, h2]⟩
      · exact Or.inl (by rw [List.foldl_cons, h, h2])
    · exact Or.inr ⟨e, List.mem_cons_of_mem a he, by rw [List.foldl_cons, h]⟩

/-- The scan selects the strictly smallest entry when it is unique. -/
theorem scanMin_unique (l : List (String × String)) (e : String × String)
    (he : e ∈ l) (hinit : entryVal e < (9223372036854775808 : ℚ))
    (hmin : ∀ a ∈ l, a ≠ e → entryVal e < entryVal a) :
    scanMin l = (entryVal e, e.1) := by
  have hle := scanFold_le_entry l ((9223372036854775808 : ℚ), "") e he
  rcases scanFold_cases l ((9223372036854775808 : ℚ), "") with h | ⟨a, ha, h⟩
  · exfalso
    rw [h] at hle
    exact absurd hle (not_le.mpr hinit)
  · by_cases hae : a = e
    · rw [← hae]
      exact h
    · exfalso
      rw [h] at hle
      exact absurd hle (not_le.mpr (hmin a ha hae))

/-! ## Claims about the selector -/

/-- C4: whenever the registry's backend sequence is empty, NextBackend fails
with noBackendsAvailable and returns no backend, regardless of the latency
store's contents (including a failing store read). -/
theorem nextBackend_empty_registry
    (snapshot : Except Unit (List (String × String))) :
    NextBackend [] snapshot = .error .noBackendsAvailable := rfl

/-- C6: whenever NextBackend returns a backend (rather than an error), that
backend is an element of the registry's backend sequence passed to it. -/
theorem nextBackend_returns_registry_member (backends : List Backend)
    (snapshot : Except Unit (List (String × String))) (b : Backend)
    (_hne : backends ≠ []) (h : NextBackend backends snapshot = .ok b) :
    b ∈ backends := by
  simp only [NextBackend] at h
  split at h
  · cases h
  · split at h
    · cases h
    · split at h
      · cases h
      · split at h
        · rename_i b2 hfind
          cases h
          exact List.mem_of_find?_eq_some hfind
        · cases h

/-- C6 witness: a singleton registry with a zero-latency store entry. -/
theorem nextBackend_returns_registry_member_witness :
    Backend.mk ("http://a") ∈ [Backend.mk ("http://a")] :=
  nextBackend_returns_registry_member [Backend.mk ("http://a")]
    (.ok [("http://a", "0")]) (Backend.mk ("http://a")) (by decide) (by decide)

/-- C1 counterexample: in a snapshot holding a 10ms entry and an entry whose
serialized duration fails to parse, the unparseable entry IS selected (its
ignored parse error leaves the zero Duration, which wins the min scan), so
it is not treated as absent. -/
theorem nextBackend_unparseable_selected :
    parseDuration ("garbage") = none ∧
      NextBackend [Backend.mk ("http://a"), Backend.mk ("http://b")]
        (.ok [("http://a", "10ms"), ("http://b", "garbage")]) =
        .ok (Backend.mk ("http://b")) := by
  constructor
  · decide
  · decide

/-- C1 (amended): an entry whose serialized duration value fails to parse is
treated as a zero-duration entry, not as absent: NextBackend behaves exactly
as if the entry's value were "0" (so the scan of the remaining entries is
not aborted, and the entry can itself be the selected minimum-latency
candidate). -/
theorem nextBackend_unparseable_as_zero (backends : List Backend)
    (l1 l2 : List (String × String)) (u s : String)
    (hs : parseDuration s = none) :
    NextBackend backends (.ok (l1 ++ (u, s) :: l2)) =
      NextBackend backends (.ok (l1 ++ (u, "0") :: l2)) := by
  have hscan : scanMin (l1 ++ (u, s) :: l2) = scanMin (l1 ++ (u, "0") :: l2) := by
    unfold scanMin
    rw [List.foldl_append, List.foldl_append, List.foldl_cons, List.foldl_cons]
    have : scanStep (l1.foldl scanStep ((9223372036854775808 : ℚ), "")) (u, s) =
        scanStep (l1.foldl scanStep ((9223372036854775808 : ℚ), "")) (u, "0") := by
      unfold scanStep entryVal
      rw [hs, parseDuration_zero]
      rfl
    rw [this]
  simp only [NextBackend]
  rw [hscan]

/-- C1 witness for the amended claim: the entry ("zzz") fails to parse and the
selection outcome matches the outcome with "0" in its place. -/
theorem nextBackend_unparseable_as_zero_witness :
    parseDuration ("zzz") = none ∧
      NextBackend [Backend.mk ("http://a"), Backend.mk ("http://b")]
          (.ok [("http://a", "10ms"), ("http://b", "zzz")]) =
        NextBackend [Backend.mk ("http://a"), Backend.mk ("http://b")]
          (.ok [("http://a", "10ms"), ("http://b", "0")]) :=
  ⟨by decide,
    nextBackend_unparseable_as_zero
      [Backend.mk ("http://a"), Backend.mk ("http://b")]
      [("http://a", "10ms")] [] ("http://b") "zzz" (by decide)⟩

/-- C5: with exactly three backends whose store entries parse to 10ms, 5ms
and 20ms, NextBackend returns the 5ms backend for every iteration order
(every permutation) of the snapshot. -/
theorem nextBackend_min_latency_backend (l : List (String × String))
    (h : l.Perm [("http://u1", "10ms"), ("http://u2", "5ms"), ("http://u3", "20ms")]) :
    NextBackend [Backend.mk ("http://u1"), Backend.mk ("http://u2"), Backend.mk ("http://u3")]
      (.ok l) = .ok (Backend.mk ("http://u2")) := by
  have hmem : (("http://u2", "5ms") : String × String) ∈ l :=
    h.mem_iff.mpr (by simp)
  have hscan : scanMin l = (entryVal ("http://u2", "5ms"), "http://u2") := by
    refine scanMin_unique l ("http://u2", "5ms") hmem (by decide) ?_
    intro a ha hne
    have ha2 := h.mem_iff.mp ha
    simp only [List.mem_cons, List.not_mem_nil, or_false] at ha2
    rcases ha2 with rfl | rfl | rfl
    · decide
    · exact absurd rfl hne
    · decide
  simp only [NextBackend]
  rw [hscan]
  decide

/-- C5 witness: the claim instantiated at one concrete iteration order. -/
theorem nextBackend_min_latency_backend_witness :
    NextBackend [Backend.mk ("http://u1"), Backend.mk ("http://u2"), Backend.mk ("http://u3")]
      (.ok [("http://u1", "10ms"), ("http://u2", "5ms"), ("http://u3", "20ms")]) =
      .ok (Backend.mk ("http://u2")) :=
  nextBackend_min_latency_backend
    [("http://u1", "10ms"), ("http://u2", "5ms"), ("http://u3", "20ms")]
    (List.Perm.refl _)

/-! ## Claims about the admission gate -/

/-- C7: a request whose client-identity query parameter is empty or absent is
always admitted with no error, whatever the body and whatever limiter state
previous requests produced; the state is not consulted or changed. -/
theorem allow_empty_identity_bypass (mrl : MethodRateLimiter) (r : Request)
    (now : ℚ) (h : r.nodeId = "") :
    Allow mrl r now = (.ok true, mrl) := by
  simp [Allow, h]

/-- C7 witness: an anonymous request with an unreadable body against a fresh
limiter. -/
theorem allow_empty_identity_bypass_witness :
    Allow (NewMethodRateLimiter 10 60) { nodeId := "", body := .readError } 0 =
      (.ok true, NewMethodRateLimiter 10 60) :=
  allow_empty_identity_bypass (NewMethodRateLimiter 10 60)
    { nodeId := "", body := .readError } 0 rfl

/-- C9: with a non-empty client identity, a body that cannot be read or not
parsed as JSON makes Allow return an error (never the denied outcome), and
the handler maps it to HTTP 500, not 429. -/
theorem allow_body_error_is_server_error (mrl : MethodRateLimiter)
    (r : Request) (now : ℚ) (hn : r.nodeId ≠ "")
    (hb : r.body = .readError ∨ r.body = .parseError) :
    (∃ e, (Allow mrl r now).1 = .error e) ∧
      (handleRequest mrl r now).1 = .serverError500 := by
  rcases hb with hb | hb
  · exact ⟨⟨.bodyReadError, by simp [Allow, hb, hn]⟩,
      by simp [handleRequest, Allow, hb, hn]⟩
  · exact ⟨⟨.bodyParseError, by simp [Allow, hb, hn]⟩,
      by simp [handleRequest, Allow, hb, hn]⟩

/-- C9 witness: a request with identity ("n") and an unparseable body. -/
theorem allow_body_error_is_server_error_witness :
    (∃ e, (Allow (NewMethodRateLimiter 10 60)
        { nodeId := "n", body := .parseError } 0).1 = .error e) ∧
      (handleRequest (NewMethodRateLimiter 10 60)
        { nodeId := "n", body := .parseError } 0).1 = .serverError500 :=
  allow_body_error_is_server_error (NewMethodRateLimiter 10 60)
    { nodeId := "n", body := .parseError } 0 (by decide) (Or.inr rfl)

/-- C8: a denied call (result false, no error) leaves the limiter state
completely unchanged: in particular the denied key's token count and
last-refill timestamp are untouched. -/
theorem allow_deny_leaves_state (mrl : MethodRateLimiter) (r : Request)
    (now : ℚ) (h : (Allow mrl r now).1 = .ok false) :
    (Allow mrl r now).2 = mrl := by
  revert h
  unfold Allow
  repeat' split
  all_goals intro h
  all_goals first
  | rfl
  | simp at h

/-- C8 witness: a bucket with zero tokens denies a further request at the
same instant and the state is unchanged. -/
theorem allow_deny_leaves_state_witness :
    (Allow (singleBucket ("n-eth_getChainId") 0 5)
        { nodeId := "n", body := .ok ("eth_getChainId") } 5).1 = .ok false ∧
      (Allow (singleBucket ("n-eth_getChainId") 0 5)
        { nodeId := "n", body := .ok ("eth_getChainId") } 5).2 =
        singleBucket ("n-eth_getChainId") 0 5 := by
  have h : (Allow (singleBucket ("n-eth_getChainId") 0 5)
      { nodeId := "n", body := .ok ("eth_getChainId") } 5).1 = .ok false := by
    have e1 : ¬(("n" : String) = "") := by decide
    have e2 : ("n" ++ "-" ++ "eth_getChainId" : String) = "n-eth_getChainId" := rfl
    norm_num [Allow, singleBucket, allowedMethods, List.lookup, clampTokens, e1, e2]
  exact ⟨h, allow_deny_leaves_state (singleBucket ("n-eth_getChainId") 0 5)
    { nodeId := "n", body := .ok ("eth_getChainId") } 5 h⟩

/-! ## Tracing repeated calls on one bucket (main.go configuration) -/

/-- First call for a fresh key: initialize tokens = burst - 1 = 59 and admit. -/
theorem allow_first_call (nodeId m : String) (t : ℚ)
    (hn : nodeId ≠ "") (hm : m ∈ allowedMethods) :
    Allow (NewMethodRateLimiter 10 60) { nodeId := nodeId, body := .ok m } t =
      (.ok true, singleBucket (nodeId ++ "-" ++ m) 59 t) := by
  norm_num [Allow, NewMethodRateLimiter, singleBucket, setAssoc, hn, hm,
    List.lookup]

/-- Later call on a bucket holding 1 ≤ v ≤ 60 tokens, at the same instant as
the last refill: admitted, one token consumed. -/
theorem allow_refill_admit (nodeId m : String) (t v : ℚ)
    (hn : nodeId ≠ "") (hm : m ∈ allowedMethods)
    (h1 : 1 ≤ v) (h2 : v ≤ 60) :
    Allow (singleBucket (nodeId ++ "-" ++ m) v t) { nodeId := nodeId, body := .ok m } t =
      (.ok true, singleBucket (nodeId ++ "-" ++ m) (v - 1) t) := by
  have hc1 : ¬((60 : ℚ) < v) := not_lt.mpr h2
  have hc2 : ¬(v < 1) := not_lt.mpr h1
  norm_num [Allow, singleBucket, setAssoc, hn, hm, List.lookup, clampTokens,
    hc1, hc2]

/-- Later call on an empty bucket at the refill instant: denied. -/
theorem allow_refill_deny (nodeId m : String) (t : ℚ)
    (hn : nodeId ≠ "") (hm : m ∈ allowedMethods) :
    Allow (singleBucket (nodeId ++ "-" ++ m) 0 t) { nodeId := nodeId, body := .ok m } t =
      (.ok false, singleBucket (nodeId ++ "-" ++ m) 0 t) := by
  norm_num [Allow, singleBucket, hn, hm, List.lookup, clampTokens]

/-- One-step unfolding of runSeq at a successor count. -/
theorem runSeq_succ (mrl : MethodRateLimiter) (r : Request) (t : ℚ) (n : Nat) :
    runSeq mrl r t (n + 1) =
      ((Allow mrl r t).1 :: (runSeq (Allow mrl r t).2 r t n).1,
        (runSeq (Allow mrl r t).2 r t n).2) := rfl

/-- Starting from n tokens (n ≤ 59), the next n calls at the same instant are
admitted and the following one is denied. -/
theorem runSeq_countdown (nodeId m : String) (t : ℚ)
    (hn : nodeId ≠ "") (hm : m ∈ allowedMethods) :
    ∀ n : Nat, n ≤ 59 →
      runSeq (singleBucket (nodeId ++ "-" ++ m) (n : ℚ) t)
          { nodeId := nodeId, body := .ok m } t (n + 1) =
        (List.replicate n (.ok true) ++ [.ok false],
          singleBucket (nodeId ++ "-" ++ m) 0 t) := by
  intro n
  induction n with
  | zero =>
    intro _
    rw [runSeq_succ, Nat.cast_zero, allow_refill_deny nodeId m t hn hm]
    simp [runSeq]
  | succ n ih =>
    intro hle
    have h1 : (1 : ℚ) ≤ ((n + 1 : Nat) : ℚ) := by
      exact_mod_cast Nat.one_le_iff_ne_zero.mpr (Nat.succ_ne_zero n)
    have h2 : ((n + 1 : Nat) : ℚ) ≤ 60 := by
      exact_mod_cast le_trans hle (by norm_num)
    rw [runSeq_succ, allow_refill_admit nodeId m t ((n + 1 : Nat) : ℚ) hn hm h1 h2]
    have hv : ((n + 1 : Nat) : ℚ) - 1 = (n : ℚ) := by push_cast; ring
    dsimp only
    rw [hv, ih (Nat.le_of_succ_le hle)]
    simp [List.replicate_succ]

/-- C2: with rate=10 and burst=60 (the main.go configuration), for any fixed
key — non-empty client identity, method in the allow-list — 61 calls at the
same instant admit the first 60 and deny the 61st. -/
theorem rateLimiter_sixty_burst_then_deny (nodeId m : String) (t : ℚ)
    (hn : nodeId ≠ "") (hm : m ∈ allowedMethods) :
    (runSeq (NewMethodRateLimiter 10 60) { nodeId := nodeId, body := .ok m } t 61).1 =
      List.replicate 60 (.ok true) ++ [.ok false] := by
  rw [show (61 : Nat) = 60 + 1 from rfl, runSeq_succ]
  rw [allow_first_call nodeId m t hn hm]
  dsimp only
  rw [show (59 : ℚ) = ((59 : Nat) : ℚ) by norm_num,
    show (60 : Nat) = 59 + 1 from rfl]
  rw [runSeq_countdown nodeId m t hn hm 59 (le_refl 59)]
  simp [List.replicate_succ]

/-- C2 witness: client ("n"), method eth_getChainId, all calls at time 0. -/
theorem rateLimiter_sixty_burst_then_deny_witness :
    (runSeq (NewMethodRateLimiter 10 60)
        { nodeId := "n", body := .ok ("eth_getChainId") } 0 61).1 =
      List.replicate 60 (.ok true) ++ [.ok false] :=
  rateLimiter_sixty_burst_then_deny ("n") "eth_getChainId" 0 (by decide)
    (by simp [allowedMethods])

/-! ## The token-count invariant -/

theorem mem_setAssoc {β : Type} (l : List (String × β)) (k : String) (v : β)
    (p : String × β) (hp : p ∈ setAssoc l k v) : p.2 = v ∨ p ∈ l := by
  induction l with
  | nil =>
    simp only [setAssoc, List.mem_singleton] at hp
    exact Or.inl (by rw [hp])
  | cons a l ih =>
    unfold setAssoc at hp
    split at hp
    · rcases List.mem_cons.mp hp with rfl | h
      · exact Or.inl rfl
      · exact Or.inr (List.mem_cons_of_mem a h)
    · rcases List.mem_cons.mp hp with rfl | h
      · exact Or.inr (List.mem_cons_self _ _)
      · rcases ih h with h2 | h2
        · exact Or.inl h2
        · exact Or.inr (List.mem_cons_of_mem a h2)

theorem clampTokens_le (burst : Int) (t : ℚ) :
    clampTokens burst t ≤ (burst : ℚ) := by
  unfold clampTokens
  split
  · exact le_refl _
  · exact le_of_not_lt (by assumption)

/-- One Allow call keeps the configuration fields and preserves the
0 ≤ tokens ≤ burst bound on every stored bucket (for burst ≥ 1). -/
theorem allow_preserves (mrl : MethodRateLimiter) (r : Request) (now : ℚ)
    (hb : 1 ≤ mrl.burst)
    (hInv : ∀ p ∈ mrl.tokens, 0 ≤ p.2 ∧ p.2 ≤ (mrl.burst : ℚ)) :
    (Allow mrl r now).2.burst = mrl.burst ∧
      ∀ p ∈ (Allow mrl r now).2.tokens, 0 ≤ p.2 ∧ p.2 ≤ (mrl.burst : ℚ) := by
  have hb1 : (1 : ℚ) ≤ (mrl.burst : ℚ) := by exact_mod_cast hb
  unfold Allow
  split
  · exact ⟨rfl, hInv⟩
  · split
    · exact ⟨rfl, hInv⟩
    · exact ⟨rfl, hInv⟩
    · split
      · split
        · split
          · exact ⟨rfl, hInv⟩
          · rename_i tk la e1 e2 hclamp
            refine ⟨rfl, ?_⟩
            intro p hp
            rcases mem_setAssoc _ _ _ p hp with h | h
            · rw [h]
              have hge := le_of_not_lt hclamp
              have hle2 := clampTokens_le mrl.burst (tk + (now - la) * mrl.rate)
              exact ⟨by linarith, by linarith⟩
            · exact hInv p h
        · refine ⟨rfl, ?_⟩
          intro p hp
          rcases mem_setAssoc _ _ _ p hp with h | h
          · rw [h]
            exact ⟨by linarith, by linarith⟩
          · exact hInv p h
      · exact ⟨rfl, hInv⟩

/-- The bound holds in every state reachable by a call sequence. -/
theorem runAllows_inv_aux (burst : Int) (hb : 1 ≤ burst)
    (calls : List (Request × ℚ)) (mrl : MethodRateLimiter)
    (hmb : mrl.burst = burst)
    (hInv : ∀ p ∈ mrl.tokens, 0 ≤ p.2 ∧ p.2 ≤ (burst : ℚ)) :
    (runAllows mrl calls).burst = burst ∧
      ∀ p ∈ (runAllows mrl calls).tokens, 0 ≤ p.2 ∧ p.2 ≤ (burst : ℚ) := by
  induction calls generalizing mrl with
  | nil => exact ⟨hmb, hInv⟩
  | cons c calls ih =>
    have h := allow_preserves mrl c.1 c.2 (hmb ▸ hb) (by rw [hmb]; exact hInv)
    exact ih (Allow mrl c.1 c.2).2 (h.1.trans hmb) (by rw [← hmb]; exact h.2)

/-- C3: for burst ≥ 1, every state reachable from the fresh limiter by any
Allow-call sequence stores only token counts in [0, burst]; and on the
existing-bucket path a request is admitted only when the refilled, capped
token count is at least 1 before the decrement. -/
theorem rateLimiter_token_bounds (rate : ℚ) (burst : Int) (hb : 1 ≤ burst) :
    (∀ calls : List (Request × ℚ),
      ∀ p ∈ (runAllows (NewMethodRateLimiter rate burst) calls).tokens,
        0 ≤ p.2 ∧ p.2 ≤ (burst : ℚ)) ∧
    (∀ (mrl : MethodRateLimiter) (r : Request) (m : String) (now tk la : ℚ),
      r.nodeId ≠ "" → r.body = .ok m → m ∈ mrl.methods →
      List.lookup (r.nodeId ++ "-" ++ m) mrl.tokens = some tk →
      List.lookup (r.nodeId ++ "-" ++ m) mrl.last = some la →
      (Allow mrl r now).1 = .ok true →
      1 ≤ clampTokens mrl.burst (tk + (now - la) * mrl.rate)) := by
  constructor
  · intro calls
    exact (runAllows_inv_aux burst hb calls (NewMethodRateLimiter rate burst)
      rfl (by simp [NewMethodRateLimiter])).2
  · intro mrl r m now tk la hn hbody hm htk hla hres
    by_cases hc : clampTokens mrl.burst (tk + (now - la) * mrl.rate) < 1
    · exfalso
      rw [show Allow mrl r now = (.ok false, mrl) by
        simp [Allow, hbody, hn, hm, htk, hla, hc]] at hres
      cases hres
    · exact le_of_not_lt hc

/-- C3 witness: with rate=10, burst=60, after one call the stored count 59
lies in [0, 60]; and a bucket holding 5 tokens admits with refilled count
5 ≥ 1 at the pre-decrement check. -/
theorem rateLimiter_token_bounds_witness :
    ((0 : ℚ) ≤ 59 ∧ (59 : ℚ) ≤ ((60 : Int) : ℚ)) ∧
      (1 : ℚ) ≤ clampTokens (60 : Int) (5 + ((0 : ℚ) - 0) * 10) := by
  have h := rateLimiter_token_bounds 10 60 (by norm_num)
  constructor
  · refine h.1 [({ nodeId := "n", body := .ok ("eth_getChainId") }, 0)]
      ("n-eth_getChainId", 59) ?_
    have e1 : ¬(("n" : String) = "") := by decide
    have e2 : ("n" ++ "-" ++ "eth_getChainId" : String) = "n-eth_getChainId" := rfl
    norm_num [runAllows, Allow, NewMethodRateLimiter, allowedMethods,
      setAssoc, List.lookup, e1, e2]
  · refine h.2 (singleBucket ("n-eth_getChainId") 5 0)
      { nodeId := "n", body := .ok ("eth_getChainId") } ("eth_getChainId")
      0 5 0 (by decide) rfl (by simp [singleBucket, allowedMethods])
      (by simp [singleBucket, List.lookup]) (by simp [singleBucket, List.lookup]) ?_
    have e1 : ¬(("n" : String) = "") := by decide
    have e2 : ("n" ++ "-" ++ "eth_getChainId" : String) = "n-eth_getChainId" := rfl
    norm_num [Allow, singleBucket, allowedMethods, List.lookup, clampTokens,
      e1, e2]

/-! ## Registration -/

/-- C10: AddBackend appends the parsed backend to the registry before the
store write; when the store write fails it returns the error, yet the new
backend remains appended to the registry sequence and the store is left
without the initialization write. -/
theorem addBackend_registry_mutated_on_store_error (lb : LBState)
    (urlStr u : String) :
    (AddBackend lb urlStr (some u) false).1 = .error .storeWriteFailure ∧
      (AddBackend lb urlStr (some u) false).2.backends =
        lb.backends ++ [NewBackend u] ∧
      NewBackend u ∈ (AddBackend lb urlStr (some u) false).2.backends ∧
      (AddBackend lb urlStr (some u) false).2.store = lb.store := by
  refine ⟨rfl, rfl, ?_, rfl⟩
  simp [AddBackend]

end Balancer
